import Mathlib

/-!
# Verification of the credential-vault core of `password_manager`

Shallow embedding of the two source variants (`src/codline.py` and
`src/Visual/codline.py`) of the PauVilarEstrada/password_manager repository,
together with proofs settling the frozen claims about its specification.

The embedding models:
* the crypto primitives (`hash_text`, `_derive_xor_key`, `encrypt_password`,
  `decrypt_password`) including a complete executable SHA-256, the strict
  UTF-8 codec used by Python's `str.encode("utf-8")` / `bytes.decode("utf-8")`,
  and the URL-safe base64 codec used by `base64.urlsafe_b64encode/b64decode`;
* the entry model (`build_entry`, `Entry.update_password`, `Entry.update_login`,
  the mutation part of `edit_entry`);
* the store (`load_entries`, `ensure_storage`, `add_entry`, `select_entry`,
  `delete_entry`) as pure functions over an explicit file-system state, with
  Python exceptions modelled by `Except` and the JSON parser of the standard
  library treated as an oracle whose outcome is an input of `load_entries`.

Bytes are modelled as `Nat` with the invariant `< 256` carried in hypotheses.
-/

set_option maxRecDepth 4000

namespace PasswordManager

/-! ## UTF-8 codec (model of Python `str.encode("utf-8")` / `bytes.decode("utf-8")`) -/

/-- UTF-8 encoding of a single Unicode scalar value `c`. -/
def utf8EncodeChar (c : Nat) : List Nat :=
  if c < 0x80 then [c]
  else if c < 0x800 then [0xC0 + c / 64, 0x80 + c % 64]
  else if c < 0x10000 then [0xE0 + c / 4096, 0x80 + c / 64 % 64, 0x80 + c % 64]
  else [0xF0 + c / 262144, 0x80 + c / 4096 % 64, 0x80 + c / 64 % 64, 0x80 + c % 64]

/-- UTF-8 bytes of a string (Python `s.encode("utf-8")`). -/
def utf8EncodeBytes (s : String) : List Nat :=
  (s.data.map (fun ch => utf8EncodeChar ch.toNat)).flatten

/-- Decode one 2-byte UTF-8 sequence headed by `b0` (`0xC0 ≤ b0 < 0xE0`):
returns the scalar value and the remaining bytes, `none` on a bad continuation
byte or an overlong form. -/
def utf8Dec2 (b0 : Nat) : List Nat → Option (Nat × List Nat)
  | b1 :: rest =>
    if 0x80 ≤ b1 ∧ b1 < 0xC0 ∧ 0x80 ≤ (b0 - 0xC0) * 64 + (b1 - 0x80) then
      some ((b0 - 0xC0) * 64 + (b1 - 0x80), rest)
    else none
  | _ => none

/-- Decode one 3-byte UTF-8 sequence headed by `b0` (`0xE0 ≤ b0 < 0xF0`):
rejects bad continuation bytes, overlong forms and surrogates. -/
def utf8Dec3 (b0 : Nat) : List Nat → Option (Nat × List Nat)
  | b1 :: b2 :: rest =>
    if (0x80 ≤ b1 ∧ b1 < 0xC0) ∧ (0x80 ≤ b2 ∧ b2 < 0xC0) ∧
        0x800 ≤ (b0 - 0xE0) * 4096 + (b1 - 0x80) * 64 + (b2 - 0x80) ∧
        ¬(0xD800 ≤ (b0 - 0xE0) * 4096 + (b1 - 0x80) * 64 + (b2 - 0x80) ∧
          (b0 - 0xE0) * 4096 + (b1 - 0x80) * 64 + (b2 - 0x80) < 0xE000) then
      some ((b0 - 0xE0) * 4096 + (b1 - 0x80) * 64 + (b2 - 0x80), rest)
    else none
  | _ => none

/-- Decode one 4-byte UTF-8 sequence headed by `b0` (`0xF0 ≤ b0 < 0xF8`):
rejects bad continuation bytes, overlong forms and code points above `0x10FFFF`. -/
def utf8Dec4 (b0 : Nat) : List Nat → Option (Nat × List Nat)
  | b1 :: b2 :: b3 :: rest =>
    if (0x80 ≤ b1 ∧ b1 < 0xC0) ∧ (0x80 ≤ b2 ∧ b2 < 0xC0) ∧ (0x80 ≤ b3 ∧ b3 < 0xC0) ∧
        0x10000 ≤ (b0 - 0xF0) * 262144 + (b1 - 0x80) * 4096 + (b2 - 0x80) * 64 + (b3 - 0x80) ∧
        (b0 - 0xF0) * 262144 + (b1 - 0x80) * 4096 + (b2 - 0x80) * 64 + (b3 - 0x80) < 0x110000 then
      some ((b0 - 0xF0) * 262144 + (b1 - 0x80) * 4096 + (b2 - 0x80) * 64 + (b3 - 0x80), rest)
    else none
  | _ => none

/-- Decode the first UTF-8 sequence of a byte list (strict, as Python's
`bytes.decode("utf-8")`): the scalar value and the remaining bytes. -/
def utf8DecodeOne : List Nat → Option (Nat × List Nat)
  | [] => none
  | b0 :: rest =>
    if b0 < 0x80 then some (b0, rest)
    else if b0 < 0xC0 then none
    else if b0 < 0xE0 then utf8Dec2 b0 rest
    else if b0 < 0xF0 then utf8Dec3 b0 rest
    else if b0 < 0xF8 then utf8Dec4 b0 rest
    else none

/-- Fuelled driver of the strict UTF-8 decoder; each step consumes at least one
byte, so fuel `bs.length` is always sufficient. -/
def utf8DecodeFuel : Nat → List Nat → Option (List Nat)
  | _, [] => some []
  | 0, _ :: _ => none
  | n + 1, b0 :: rest =>
    match utf8DecodeOne (b0 :: rest) with
    | some (c, rest2) => (utf8DecodeFuel n rest2).map (fun cs => c :: cs)
    | none => none

/-- Strict UTF-8 decoding of a byte list into Unicode scalar values; `none`
models Python's `UnicodeDecodeError`. -/
def utf8DecodeList (bs : List Nat) : Option (List Nat) := utf8DecodeFuel bs.length bs

/-- Decode UTF-8 bytes into a string (Python `bs.decode("utf-8")`); `none` models
`UnicodeDecodeError`. -/
def utf8Decode (bs : List Nat) : Option String :=
  (utf8DecodeList bs).map (fun cs => String.mk (cs.map Char.ofNat))

/-! ## Repeating-key XOR (the loop `bytes(b ^ key[i % len(key)] for i, b in enumerate(data))`) -/

/-- XOR a byte list against `key` cycled, starting at key index `i`. -/
def xorCycleFrom (key : List Nat) (i : Nat) : List Nat → List Nat
  | [] => []
  | b :: rest => (b ^^^ key.getD (i % key.length) 0) :: xorCycleFrom key (i + 1) rest

/-- `bytes(b ^ key[i % len(key)] for i, b in enumerate(data))` from the source. -/
def xorCycle (key : List Nat) (data : List Nat) : List Nat := xorCycleFrom key 0 data

/-! ## URL-safe base64 (model of `base64.urlsafe_b64encode` / `urlsafe_b64decode`) -/

/-- The ASCII code of character `i` of the URL-safe base64 alphabet
`A-Z a-z 0-9 - _` (total outside `i < 64`, but only used below 64). -/
def b64CharOf (i : Nat) : Nat :=
  if i < 26 then 65 + i
  else if i < 52 then 71 + i
  else if i < 62 then i - 4
  else if i = 62 then 45
  else 95

/-- Position of ASCII code `ch` in the base64 alphabet as seen after
`urlsafe_b64decode`'s translation (`-` → `+`, `_` → `/`): both the URL-safe
pair and the standard pair decode, exactly as in CPython; `none` for every
character `binascii.a2b_base64` would skip. -/
def b64IndexOf (ch : Nat) : Option Nat :=
  if 65 ≤ ch ∧ ch ≤ 90 then some (ch - 65)
  else if 97 ≤ ch ∧ ch ≤ 122 then some (ch - 71)
  else if 48 ≤ ch ∧ ch ≤ 57 then some (ch + 4)
  else if ch = 45 ∨ ch = 43 then some 62
  else if ch = 95 ∨ ch = 47 then some 63
  else none

/-- URL-safe base64 encoding of a byte list as a list of ASCII codes, padding
with `=` (ASCII 61) exactly as Python's `base64.urlsafe_b64encode` does. -/
def b64EncodeBytes : List Nat → List Nat
  | [] => []
  | [b0] => [b64CharOf (b0 / 4), b64CharOf (b0 % 4 * 16), 61, 61]
  | [b0, b1] => [b64CharOf (b0 / 4), b64CharOf (b0 % 4 * 16 + b1 / 16),
      b64CharOf (b1 % 16 * 4), 61]
  | b0 :: b1 :: b2 :: rest =>
      b64CharOf (b0 / 4) :: b64CharOf (b0 % 4 * 16 + b1 / 16) ::
      b64CharOf (b1 % 16 * 4 + b2 / 64) :: b64CharOf (b2 % 64) ::
      b64EncodeBytes rest

/-- CPython's non-strict `binascii.a2b_base64` loop (`strict_mode=False`, the
mode `base64.b64decode` uses): `quad` counts the data characters of the current
group of four, `leftchar` holds their pending bits, `pads` the current run of
`=` signs.  A `=` that completes a quad of two or three data characters ends
the decode successfully, discarding any remaining input; characters outside the
alphabet are skipped silently; input ending in an incomplete quad raises
`binascii.Error` (either "number of data characters cannot be 1 more than a
multiple of 4" or "Invalid padding"), modelled as `none`. -/
def a2bAux : List Nat → Nat → Nat → Nat → Option (List Nat)
  | [], quad, _, _ => if quad = 0 then some [] else none
  | c :: cs, quad, leftchar, pads =>
    if c = 61 then
      if 2 ≤ quad ∧ 4 ≤ quad + (pads + 1) then some []
      else a2bAux cs quad leftchar (pads + 1)
    else
      match b64IndexOf c with
      | none => a2bAux cs quad leftchar pads
      | some v =>
        if quad = 0 then a2bAux cs 1 v 0
        else if quad = 1 then
          (a2bAux cs 2 (v % 16) 0).map (fun bs => (leftchar * 4 + v / 16) :: bs)
        else if quad = 2 then
          (a2bAux cs 3 (v % 4) 0).map (fun bs => (leftchar * 16 + v / 4) :: bs)
        else (a2bAux cs 0 0 0).map (fun bs => (leftchar * 64 + v) :: bs)

/-- `base64.urlsafe_b64decode` on a list of ASCII codes: a `str` argument must
be pure ASCII (`ValueError` otherwise), then the translated bytes go through
CPython's non-strict `binascii.a2b_base64`; `none` models either exception
escaping `decrypt_password`. -/
def b64DecodeBytes (codes : List Nat) : Option (List Nat) :=
  if codes.all (fun c => c < 128) then a2bAux codes 0 0 0 else none

/-! ## SHA-256 (model of `hashlib.sha256`)

The round constants are not transcribed: they are computed from their
definition in FIPS 180-4 — the first 32 bits of the fractional parts of the
square roots (initial hash) and cube roots (round constants) of the first
primes — using integer square/cube roots. -/

/-- The first 64 primes (2 … 311). -/
def shaPrimes : List Nat := ((List.range 312).filter (fun p => Nat.Prime p)).take 64

/-- Binary-search step for the integer cube root: maintains `lo^3 ≤ n < hi^3`. -/
def icbrtAux (n lo hi : Nat) : Nat :=
  if _h : hi ≤ lo + 1 then lo
  else
    if ((lo + hi) / 2) ^ 3 ≤ n then icbrtAux n ((lo + hi) / 2) hi
    else icbrtAux n lo ((lo + hi) / 2)
termination_by hi - lo
decreasing_by all_goals omega

/-- Integer cube root: the largest `k` with `k^3 ≤ n`. -/
def icbrt (n : Nat) : Nat := icbrtAux n 0 (n + 1)

/-- First 32 bits of the fractional part of the cube root of `p`. -/
def fracCbrtBits (p : Nat) : Nat := icbrt (p * 2 ^ 96) % 2 ^ 32

/-- First 32 bits of the fractional part of the square root of `p`. -/
def fracSqrtBits (p : Nat) : Nat := Nat.sqrt (p * 2 ^ 64) % 2 ^ 32

/-- The 64 SHA-256 round constants. -/
def shaK : List Nat := shaPrimes.map fracCbrtBits

/-- The eight 32-bit working variables of the SHA-256 compression function. -/
structure Hash8 where
  a : Nat
  b : Nat
  c : Nat
  d : Nat
  e : Nat
  f : Nat
  g : Nat
  h : Nat

/-- SHA-256 initial hash value. -/
def shaH0 : Hash8 :=
  ⟨fracSqrtBits 2, fracSqrtBits 3, fracSqrtBits 5, fracSqrtBits 7,
   fracSqrtBits 11, fracSqrtBits 13, fracSqrtBits 17, fracSqrtBits 19⟩

/-- 32-bit rotate right by `n`. -/
def rotr (n x : Nat) : Nat := (x / 2 ^ n + x % 2 ^ n * 2 ^ (32 - n)) % 2 ^ 32

/-- Big-endian 32-bit words of a byte list (groups of 4; a ragged tail is dropped,
which never happens on 64-byte blocks). -/
def toWords : List Nat → List Nat
  | b0 :: b1 :: b2 :: b3 :: rest => (((b0 * 256 + b1) * 256 + b2) * 256 + b3) :: toWords rest
  | _ => []

/-- σ0 of the message schedule. -/
def ssig0 (x : Nat) : Nat := rotr 7 x ^^^ rotr 18 x ^^^ x / 2 ^ 3

/-- σ1 of the message schedule. -/
def ssig1 (x : Nat) : Nat := rotr 17 x ^^^ rotr 19 x ^^^ x / 2 ^ 10

/-- Append the next word of the message schedule. -/
def extendStep (w : List Nat) : List Nat :=
  w ++ [(ssig1 (w.getD (w.length - 2) 0) + w.getD (w.length - 7) 0 +
         ssig0 (w.getD (w.length - 15) 0) + w.getD (w.length - 16) 0) % 2 ^ 32]

/-- The 64-word message schedule of one block. -/
def messageSchedule (block : List Nat) : List Nat := Nat.repeat extendStep 48 (toWords block)

/-- One SHA-256 compression round with round constant `k` and schedule word `w`. -/
def shaRound (st : Hash8) (k w : Nat) : Hash8 :=
  let s1 := rotr 6 st.e ^^^ rotr 11 st.e ^^^ rotr 25 st.e
  let ch := (st.e &&& st.f) ^^^ ((0xFFFFFFFF ^^^ st.e) &&& st.g)
  let t1 := (st.h + s1 + ch + k + w) % 2 ^ 32
  let s0 := rotr 2 st.a ^^^ rotr 13 st.a ^^^ rotr 22 st.a
  let mj := (st.a &&& st.b) ^^^ (st.a &&& st.c) ^^^ (st.b &&& st.c)
  let t2 := (s0 + mj) % 2 ^ 32
  ⟨(t1 + t2) % 2 ^ 32, st.a, st.b, st.c, (st.d + t1) % 2 ^ 32, st.e, st.f, st.g⟩

/-- Compress one 64-byte block into the running hash. -/
def compress (st : Hash8) (block : List Nat) : Hash8 :=
  let t := (shaK.zip (messageSchedule block)).foldl (fun s kw => shaRound s kw.1 kw.2) st
  ⟨(st.a + t.a) % 2 ^ 32, (st.b + t.b) % 2 ^ 32, (st.c + t.c) % 2 ^ 32,
   (st.d + t.d) % 2 ^ 32, (st.e + t.e) % 2 ^ 32, (st.f + t.f) % 2 ^ 32,
   (st.g + t.g) % 2 ^ 32, (st.h + t.h) % 2 ^ 32⟩

/-- Split into 64-byte blocks. -/
def chunks64 (l : List Nat) : List (List Nat) :=
  if _h : l = [] then [] else l.take 64 :: chunks64 (l.drop 64)
termination_by l.length
decreasing_by
  cases l with
  | nil => exact absurd rfl _h
  | cons x xs => simp [List.length_drop]; omega

/-- The 8-byte big-endian encoding of the 64-bit message bit length. -/
def lenBytes8 (n : Nat) : List Nat :=
  [n / 2 ^ 56 % 256, n / 2 ^ 48 % 256, n / 2 ^ 40 % 256, n / 2 ^ 32 % 256,
   n / 2 ^ 24 % 256, n / 2 ^ 16 % 256, n / 2 ^ 8 % 256, n % 256]

/-- The big-endian bytes of a 32-bit word. -/
def wordBytes (w : Nat) : List Nat := [w / 2 ^ 24 % 256, w / 2 ^ 16 % 256, w / 2 ^ 8 % 256, w % 256]

/-- SHA-256 digest (32 bytes) of a byte message: pad to a multiple of 64 bytes
(`0x80`, zeros, 64-bit big-endian bit length), compress each block, serialize. -/
def sha256bytes (msg : List Nat) : List Nat :=
  let padded := msg ++ [0x80] ++ List.replicate ((119 - msg.length % 64) % 64) 0 ++
    lenBytes8 (8 * msg.length)
  let fin := (chunks64 padded).foldl compress shaH0
  wordBytes fin.a ++ wordBytes fin.b ++ wordBytes fin.c ++ wordBytes fin.d ++
  wordBytes fin.e ++ wordBytes fin.f ++ wordBytes fin.g ++ wordBytes fin.h

/-- Lower-case hex digit. -/
def hexChar (n : Nat) : Char := if n < 10 then Char.ofNat (48 + n) else Char.ofNat (87 + n)

/-- Lower-case hex string of a byte list (Python `hexdigest()`). -/
def bytesToHex (bs : List Nat) : String :=
  String.mk ((bs.map (fun b => [hexChar (b / 16), hexChar (b % 16)])).flatten)

/-! ## The crypto functions of the source (both variants are textually identical) -/

/-- `hash_text` from the source: `sha256(text.encode("utf-8")).hexdigest()`. -/
def hash_text (text : String) : String := bytesToHex (sha256bytes (utf8EncodeBytes text))

/-- `_derive_xor_key` from the source: `sha256(password.encode("utf-8")).digest()`. -/
def derive_xor_key (password : String) : List Nat := sha256bytes (utf8EncodeBytes password)

/-- `encrypt_password` from the source: XOR the UTF-8 bytes of the password with the
cycled derived key, then URL-safe base64 encode. -/
def encrypt_password (raw_password admin_password : String) : String :=
  let key := derive_xor_key admin_password
  let data := utf8EncodeBytes raw_password
  String.mk ((b64EncodeBytes (xorCycle key data)).map Char.ofNat)

/-- `decrypt_password` from the source: URL-safe base64 decode, XOR with the cycled
derived key, UTF-8 decode.  A `.error` result models the Python exceptions
(`binascii.Error`, `UnicodeDecodeError`) escaping the function. -/
def decrypt_password (encrypted_password admin_password : String) : Except String String :=
  let key := derive_xor_key admin_password
  match b64DecodeBytes (encrypted_password.data.map Char.toNat) with
  | none => Except.error "binascii.Error: invalid base64-encoded string"
  | some data =>
    match utf8Decode (xorCycle key data) with
    | none => Except.error "UnicodeDecodeError: invalid utf-8 sequence"
    | some s => Except.ok s

/-! ## UTF-8 codec lemmas -/

theorem valid_lt (c : Nat) (hv : Nat.isValidChar c) : c < 0x110000 := by
  rcases hv with h | h
  · omega
  · omega

theorem utf8EncodeChar_lt_256 (c : Nat) (hlt : c < 0x110000) :
    ∀ b ∈ utf8EncodeChar c, b < 256 := by
  intro b hb
  rw [utf8EncodeChar] at hb
  split at hb
  · fin_cases hb; omega
  · split at hb
    · fin_cases hb <;> omega
    · split at hb
      · fin_cases hb <;> omega
      · fin_cases hb <;> omega

theorem utf8EncodeChar_length_pos (c : Nat) : 0 < (utf8EncodeChar c).length := by
  rw [utf8EncodeChar]
  split
  · simp
  · split
    · simp
    · split <;> simp

theorem utf8DecodeOne_encodeChar (c : Nat) (hv : Nat.isValidChar c) (bs : List Nat) :
    utf8DecodeOne (utf8EncodeChar c ++ bs) = some (c, bs) := by
  have hlt : c < 0x110000 := valid_lt c hv
  have hsur : ¬(0xD800 ≤ c ∧ c < 0xE000) := by
    rcases hv with h | h <;> omega
  by_cases h1 : c < 0x80
  · rw [utf8EncodeChar, if_pos h1]
    simp only [List.cons_append, List.nil_append, utf8DecodeOne, if_pos h1]
  · by_cases h2 : c < 0x800
    · rw [utf8EncodeChar, if_neg h1, if_pos h2]
      simp only [List.cons_append, List.nil_append, utf8DecodeOne]
      rw [if_neg (by omega), if_neg (by omega), if_pos (by omega)]
      simp only [utf8Dec2]
      rw [if_pos (by omega)]
      have hc : (0xC0 + c / 64 - 0xC0) * 64 + (0x80 + c % 64 - 0x80) = c := by omega
      rw [hc]
    · by_cases h3 : c < 0x10000
      · rw [utf8EncodeChar, if_neg h1, if_neg h2, if_pos h3]
        simp only [List.cons_append, List.nil_append, utf8DecodeOne]
        rw [if_neg (by omega), if_neg (by omega), if_neg (by omega), if_pos (by omega)]
        simp only [utf8Dec3]
        rw [if_pos (by omega)]
        have hc : (0xE0 + c / 4096 - 0xE0) * 4096 + (0x80 + c / 64 % 64 - 0x80) * 64 +
            (0x80 + c % 64 - 0x80) = c := by omega
        rw [hc]
      · rw [utf8EncodeChar, if_neg h1, if_neg h2, if_neg h3]
        simp only [List.cons_append, List.nil_append, utf8DecodeOne]
        rw [if_neg (by omega), if_neg (by omega), if_neg (by omega), if_neg (by omega),
          if_pos (by omega)]
        simp only [utf8Dec4]
        rw [if_pos (by omega)]
        have hc : (0xF0 + c / 262144 - 0xF0) * 262144 + (0x80 + c / 4096 % 64 - 0x80) * 4096 +
            (0x80 + c / 64 % 64 - 0x80) * 64 + (0x80 + c % 64 - 0x80) = c := by omega
        rw [hc]

theorem utf8DecodeFuel_encode : ∀ (cs : List Nat) (n : Nat), (∀ c ∈ cs, Nat.isValidChar c) →
    ((cs.map utf8EncodeChar).flatten).length ≤ n →
    utf8DecodeFuel n ((cs.map utf8EncodeChar).flatten) = some cs := by
  intro cs
  induction cs with
  | nil =>
    intro n _ _
    cases n <;> rfl
  | cons c rest ih =>
    intro n hv hlen
    have hflat : ((c :: rest).map utf8EncodeChar).flatten =
        utf8EncodeChar c ++ (rest.map utf8EncodeChar).flatten := by
      simp
    rw [hflat] at hlen ⊢
    have hpos := utf8EncodeChar_length_pos c
    cases n with
    | zero =>
      exfalso
      rw [List.length_append] at hlen
      omega
    | succ m =>
      rcases he : utf8EncodeChar c with _ | ⟨b0, tail⟩
      · rw [he] at hpos; simp at hpos
      · have hone : utf8DecodeOne
            (b0 :: (tail ++ (rest.map utf8EncodeChar).flatten)) =
            some (c, (rest.map utf8EncodeChar).flatten) := by
          have hstep := utf8DecodeOne_encodeChar c (hv c (List.mem_cons_self c rest))
            ((rest.map utf8EncodeChar).flatten)
          rw [he] at hstep
          simpa using hstep
        simp only [List.cons_append, List.append_eq, utf8DecodeFuel, hone]
        have hlen2 : ((rest.map utf8EncodeChar).flatten).length ≤ m := by
          rw [he] at hlen
          simp only [List.length_append, List.length_cons] at hlen
          omega
        rw [ih m (fun x hx => hv x (List.mem_cons_of_mem c hx)) hlen2]
        rfl

theorem utf8DecodeList_encode (cs : List Nat) (h : ∀ c ∈ cs, Nat.isValidChar c) :
    utf8DecodeList ((cs.map utf8EncodeChar).flatten) = some cs :=
  utf8DecodeFuel_encode cs _ h le_rfl

theorem charToNat_ofNat (n : Nat) (h : Nat.isValidChar n) : (Char.ofNat n).toNat = n := by
  simp [Char.ofNat, h, Char.ofNatAux, Char.toNat, UInt32.toNat, BitVec.toNat_ofNatLt]

theorem map_map_ofNat (l : List Char) : (l.map Char.toNat).map Char.ofNat = l := by
  induction l with
  | nil => rfl
  | cons a t iht => simp only [List.map_cons, Char.ofNat_toNat, iht]

/-- `p.encode("utf-8").decode("utf-8")` is the identity on strings. -/
theorem utf8_roundtrip (s : String) : utf8Decode (utf8EncodeBytes s) = some s := by
  have hmap : utf8EncodeBytes s = ((s.data.map Char.toNat).map utf8EncodeChar).flatten := by
    simp only [utf8EncodeBytes, List.map_map]
    rfl
  rw [utf8Decode, hmap, utf8DecodeList_encode]
  · simp only [Option.map_some']
    rw [map_map_ofNat]
  · intro c hc
    simp only [List.mem_map] at hc
    obtain ⟨ch, _, rfl⟩ := hc
    exact ch.valid

theorem utf8EncodeBytes_lt_256 (s : String) : ∀ b ∈ utf8EncodeBytes s, b < 256 := by
  intro b hb
  simp only [utf8EncodeBytes, List.mem_flatten, List.mem_map] at hb
  obtain ⟨l, ⟨ch, _, rfl⟩, hbl⟩ := hb
  exact utf8EncodeChar_lt_256 _ (valid_lt _ ch.valid) b hbl

/-! ## XOR lemmas -/

theorem xorCycleFrom_length (key : List Nat) (i : Nat) (l : List Nat) :
    (xorCycleFrom key i l).length = l.length := by
  induction l generalizing i with
  | nil => rfl
  | cons b rest ih => simp [xorCycleFrom, ih]

theorem xorCycleFrom_involutive (key : List Nat) (i : Nat) (l : List Nat) :
    xorCycleFrom key i (xorCycleFrom key i l) = l := by
  induction l generalizing i with
  | nil => rfl
  | cons b rest ih =>
    simp only [xorCycleFrom]
    rw [Nat.xor_cancel_right, ih]

theorem getD_lt_256 (key : List Nat) (hk : ∀ k ∈ key, k < 256) (n : Nat) :
    key.getD n 0 < 256 := by
  induction key generalizing n with
  | nil => simp [List.getD]
  | cons a t ih =>
    cases n with
    | zero => simpa using hk a (List.mem_cons_self a t)
    | succ m =>
      rw [List.getD_cons_succ]
      exact ih (fun k hkk => hk k (List.mem_cons_of_mem a hkk)) m

theorem xorCycleFrom_lt_256 (key : List Nat) (hk : ∀ k ∈ key, k < 256) (i : Nat)
    (l : List Nat) (hl : ∀ b ∈ l, b < 256) : ∀ b ∈ xorCycleFrom key i l, b < 256 := by
  induction l generalizing i with
  | nil => intro b hb; simp [xorCycleFrom] at hb
  | cons a t ih =>
    intro b hb
    simp only [xorCycleFrom, List.mem_cons] at hb
    rcases hb with hb | hb
    · subst hb
      have h1 : a < 256 := hl a (List.mem_cons_self a t)
      have h2 : key.getD (i % key.length) 0 < 256 := getD_lt_256 key hk _
      have h256 : (256 : Nat) = 2 ^ 8 := by norm_num
      rw [h256] at h1 h2 ⊢
      exact Nat.xor_lt_two_pow h1 h2
    · exact ih (i + 1) (fun x hx => hl x (List.mem_cons_of_mem a hx)) b hb

/-! ## Base64 lemmas -/

theorem b64IndexOf_charOf : ∀ i, i < 64 → b64IndexOf (b64CharOf i) = some i := by decide

theorem b64CharOf_ne_61 : ∀ i, i < 64 → b64CharOf i ≠ 61 := by decide

theorem b64CharOf_lt_128 : ∀ i, i < 64 → b64CharOf i < 128 := by decide

theorem a2bAux_step0 (v : Nat) (h : v < 64) (cs : List Nat) (l p : Nat) :
    a2bAux (b64CharOf v :: cs) 0 l p = a2bAux cs 1 v 0 := by
  simp only [a2bAux, if_neg (b64CharOf_ne_61 v h), b64IndexOf_charOf v h]
  simp

theorem a2bAux_step1 (v : Nat) (h : v < 64) (cs : List Nat) (l p : Nat) :
    a2bAux (b64CharOf v :: cs) 1 l p =
      (a2bAux cs 2 (v % 16) 0).map (fun bs => (l * 4 + v / 16) :: bs) := by
  simp only [a2bAux, if_neg (b64CharOf_ne_61 v h), b64IndexOf_charOf v h]
  simp

theorem a2bAux_step2 (v : Nat) (h : v < 64) (cs : List Nat) (l p : Nat) :
    a2bAux (b64CharOf v :: cs) 2 l p =
      (a2bAux cs 3 (v % 4) 0).map (fun bs => (l * 16 + v / 4) :: bs) := by
  simp only [a2bAux, if_neg (b64CharOf_ne_61 v h), b64IndexOf_charOf v h]
  simp

theorem a2bAux_step3 (v : Nat) (h : v < 64) (cs : List Nat) (l p : Nat) :
    a2bAux (b64CharOf v :: cs) 3 l p =
      (a2bAux cs 0 0 0).map (fun bs => (l * 64 + v) :: bs) := by
  simp only [a2bAux, if_neg (b64CharOf_ne_61 v h), b64IndexOf_charOf v h]
  simp

theorem a2bAux_pad_cont (cs : List Nat) (l : Nat) :
    a2bAux (61 :: cs) 2 l 0 = a2bAux cs 2 l 1 := by
  simp only [a2bAux, if_true]
  rw [if_neg (by omega)]

theorem a2bAux_pad_done2 (cs : List Nat) (l : Nat) :
    a2bAux (61 :: cs) 2 l 1 = some [] := by
  simp only [a2bAux, if_true]
  rw [if_pos (by omega)]

theorem a2bAux_pad_done3 (cs : List Nat) (l : Nat) :
    a2bAux (61 :: cs) 3 l 0 = some [] := by
  simp only [a2bAux, if_true]
  rw [if_pos (by omega)]

theorem b64_encode_a2b_aux : ∀ (n : Nat) (bs : List Nat), bs.length ≤ n →
    (∀ b ∈ bs, b < 256) → a2bAux (b64EncodeBytes bs) 0 0 0 = some bs := by
  intro n
  induction n with
  | zero =>
    intro bs hlen _
    have hnil : bs = [] := List.length_eq_zero.mp (Nat.le_zero.mp hlen)
    subst hnil; rfl
  | succ n ih =>
    intro bs hlen hb
    rcases bs with _ | ⟨b0, _ | ⟨b1, _ | ⟨b2, rest⟩⟩⟩
    · rfl
    · have h0 : b0 < 256 := hb b0 (by simp)
      simp only [b64EncodeBytes]
      rw [a2bAux_step0 _ (by omega), a2bAux_step1 _ (by omega), a2bAux_pad_cont,
        a2bAux_pad_done2]
      simp only [Option.map_some']
      have e0 : b0 / 4 * 4 + b0 % 4 * 16 / 16 = b0 := by omega
      rw [e0]
    · have h0 : b0 < 256 := hb b0 (by simp)
      have h1 : b1 < 256 := hb b1 (by simp)
      simp only [b64EncodeBytes]
      rw [a2bAux_step0 _ (by omega), a2bAux_step1 _ (by omega), a2bAux_step2 _ (by omega),
        a2bAux_pad_done3]
      simp only [Option.map_some']
      have e0 : b0 / 4 * 4 + (b0 % 4 * 16 + b1 / 16) / 16 = b0 := by omega
      have e1 : (b0 % 4 * 16 + b1 / 16) % 16 * 16 + b1 % 16 * 4 / 4 = b1 := by omega
      rw [e0, e1]
    · have h0 : b0 < 256 := hb b0 (by simp)
      have h1 : b1 < 256 := hb b1 (by simp)
      have h2 : b2 < 256 := hb b2 (by simp)
      have hlen2 : rest.length ≤ n := by
        simp only [List.length_cons] at hlen; omega
      have hrest : ∀ b ∈ rest, b < 256 := fun b hbr => hb b (by simp [hbr])
      simp only [b64EncodeBytes]
      rw [a2bAux_step0 _ (by omega), a2bAux_step1 _ (by omega), a2bAux_step2 _ (by omega),
        a2bAux_step3 _ (by omega), ih rest hlen2 hrest]
      simp only [Option.map_some']
      have e0 : b0 / 4 * 4 + (b0 % 4 * 16 + b1 / 16) / 16 = b0 := by omega
      have e1 : (b0 % 4 * 16 + b1 / 16) % 16 * 16 + (b1 % 16 * 4 + b2 / 64) / 4 = b1 := by
        omega
      have e2 : (b1 % 16 * 4 + b2 / 64) % 4 * 64 + b2 % 64 = b2 := by omega
      rw [e0, e1, e2]

theorem b64EncodeBytes_lt_128_aux : ∀ (n : Nat) (bs : List Nat), bs.length ≤ n →
    (∀ b ∈ bs, b < 256) → ∀ co ∈ b64EncodeBytes bs, co < 128 := by
  intro n
  induction n with
  | zero =>
    intro bs hlen _
    have hnil : bs = [] := List.length_eq_zero.mp (Nat.le_zero.mp hlen)
    subst hnil
    intro co hco
    simp [b64EncodeBytes] at hco
  | succ n ih =>
    intro bs hlen hb co hco
    rcases bs with _ | ⟨b0, _ | ⟨b1, _ | ⟨b2, rest⟩⟩⟩
    · simp [b64EncodeBytes] at hco
    · have h0 : b0 < 256 := hb b0 (by simp)
      simp only [b64EncodeBytes] at hco
      fin_cases hco
      · exact b64CharOf_lt_128 _ (by omega)
      · exact b64CharOf_lt_128 _ (by omega)
      · omega
      · omega
    · have h0 : b0 < 256 := hb b0 (by simp)
      have h1 : b1 < 256 := hb b1 (by simp)
      simp only [b64EncodeBytes] at hco
      fin_cases hco
      · exact b64CharOf_lt_128 _ (by omega)
      · exact b64CharOf_lt_128 _ (by omega)
      · exact b64CharOf_lt_128 _ (by omega)
      · omega
    · have h0 : b0 < 256 := hb b0 (by simp)
      have h1 : b1 < 256 := hb b1 (by simp)
      have h2 : b2 < 256 := hb b2 (by simp)
      have hlen2 : rest.length ≤ n := by
        simp only [List.length_cons] at hlen; omega
      have hrest : ∀ b ∈ rest, b < 256 := fun b hbr => hb b (by simp [hbr])
      simp only [b64EncodeBytes, List.mem_cons] at hco
      rcases hco with hco | hco | hco | hco | hco
      · subst hco; exact b64CharOf_lt_128 _ (by omega)
      · subst hco; exact b64CharOf_lt_128 _ (by omega)
      · subst hco; exact b64CharOf_lt_128 _ (by omega)
      · subst hco; exact b64CharOf_lt_128 _ (by omega)
      · exact ih rest hlen2 hrest co hco

theorem b64EncodeBytes_lt_128 (bs : List Nat) (hb : ∀ b ∈ bs, b < 256) :
    ∀ co ∈ b64EncodeBytes bs, co < 128 :=
  b64EncodeBytes_lt_128_aux bs.length bs le_rfl hb

theorem b64_roundtrip (bs : List Nat) (hb : ∀ b ∈ bs, b < 256) :
    b64DecodeBytes (b64EncodeBytes bs) = some bs := by
  have hall : (b64EncodeBytes bs).all (fun c => c < 128) = true := by
    rw [List.all_eq_true]
    intro c hc
    exact decide_eq_true (b64EncodeBytes_lt_128 bs hb c hc)
  simp only [b64DecodeBytes]
  rw [if_pos hall]
  exact b64_encode_a2b_aux bs.length bs le_rfl hb


theorem b64EncodeBytes_length_aux : ∀ (n : Nat) (bs : List Nat), bs.length ≤ n →
    (b64EncodeBytes bs).length = 4 * ((bs.length + 2) / 3) := by
  intro n
  induction n with
  | zero =>
    intro bs hlen
    have hnil : bs = [] := List.length_eq_zero.mp (Nat.le_zero.mp hlen)
    subst hnil; rfl
  | succ n ih =>
    intro bs hlen
    rcases bs with _ | ⟨b0, _ | ⟨b1, _ | ⟨b2, rest⟩⟩⟩
    · rfl
    · simp [b64EncodeBytes]
    · simp [b64EncodeBytes]
    · have hlen2 : rest.length ≤ n := by
        simp only [List.length_cons] at hlen; omega
      simp only [b64EncodeBytes, List.length_cons, ih rest hlen2]
      omega

theorem b64EncodeBytes_length (bs : List Nat) :
    (b64EncodeBytes bs).length = 4 * ((bs.length + 2) / 3) :=
  b64EncodeBytes_length_aux bs.length bs le_rfl

/-! ## SHA-256 digest shape -/

theorem sha256bytes_length (msg : List Nat) : (sha256bytes msg).length = 32 := by
  simp [sha256bytes, wordBytes]

theorem sha256bytes_lt_256 (msg : List Nat) : ∀ b ∈ sha256bytes msg, b < 256 := by
  intro b hb
  simp only [sha256bytes, wordBytes, List.mem_append, List.mem_cons,
    List.not_mem_nil, or_false] at hb
  omega

/-! ## The encrypt/decrypt contract -/

theorem string_codes_of_encode (bs : List Nat) (hb : ∀ b ∈ bs, b < 256) :
    (String.mk ((b64EncodeBytes bs).map Char.ofNat)).data.map Char.toNat =
      b64EncodeBytes bs := by
  have hlt := b64EncodeBytes_lt_128 bs hb
  show ((b64EncodeBytes bs).map Char.ofNat).map Char.toNat = b64EncodeBytes bs
  rw [List.map_map]
  have : ∀ l : List Nat, (∀ co ∈ l, co < 128) →
      l.map (Char.toNat ∘ Char.ofNat) = l := by
    intro l hl
    induction l with
    | nil => rfl
    | cons a t iht =>
      have ha : a < 128 := hl a (List.mem_cons_self a t)
      simp only [List.map_cons, Function.comp]
      rw [charToNat_ofNat a (Or.inl (by omega)), iht (fun x hx => hl x (List.mem_cons_of_mem a hx))]
  exact this _ hlt

/-- The central contract of the crypto primitives:
`decrypt_password (encrypt_password p s) s` recovers `p`, for every string `p`
(in particular every printable UTF-8 plaintext) and every secret `s`. -/
theorem decrypt_encrypt (p s : String) :
    decrypt_password (encrypt_password p s) s = Except.ok p := by
  have hkey : ∀ k ∈ derive_xor_key s, k < 256 := sha256bytes_lt_256 _
  have hdata : ∀ b ∈ utf8EncodeBytes p, b < 256 := utf8EncodeBytes_lt_256 p
  have hencb : ∀ b ∈ xorCycle (derive_xor_key s) (utf8EncodeBytes p), b < 256 :=
    xorCycleFrom_lt_256 _ hkey 0 _ hdata
  rw [decrypt_password, encrypt_password]
  rw [string_codes_of_encode _ hencb, b64_roundtrip _ hencb]
  simp only [xorCycle]
  rw [xorCycleFrom_involutive, utf8_roundtrip]

/-- `encrypt_password` is injective in the plaintext for a fixed secret. -/
theorem encrypt_inj (p q s : String) (h : encrypt_password p s = encrypt_password q s) :
    p = q := by
  have hp := decrypt_encrypt p s
  have hq := decrypt_encrypt q s
  rw [h] at hp
  rw [hp] at hq
  exact (Except.ok.injEq _ _).mp hq

/-! ## Python string helpers -/

/-- The ASCII whitespace removed by Python's `str.strip()` (the sources never
strip non-ASCII whitespace). -/
def isPySpace (c : Char) : Bool :=
  c = ' ' || c = '\t' || c = '\n' || c = '\x0d' || c = '\x0b' || c = '\x0c'

/-- `str.strip()` on a character list: drop whitespace from both ends. -/
def stripL (l : List Char) : List Char :=
  ((l.dropWhile isPySpace).reverse.dropWhile isPySpace).reverse

/-- Python `s.strip()`. -/
def pyStrip (s : String) : String := String.mk (stripL s.data)

/-- Consume `pat` from the front of the second list, returning the remainder. -/
def dropPat : List Char → List Char → Option (List Char)
  | [], l => some l
  | _ :: _, [] => none
  | p :: ps, c :: cs => if p = c then dropPat ps cs else none

/-- Python `s.replace(pat, "")` for non-empty `pat`: remove every left-to-right,
non-overlapping occurrence of `pat` (fuelled by the string length; one step
always consumes at least one character). -/
def removeAllAux (pat : List Char) : Nat → List Char → List Char
  | _, [] => []
  | 0, l => l
  | fuel + 1, c :: cs =>
    match dropPat pat (c :: cs) with
    | some rest => removeAllAux pat fuel rest
    | none => c :: removeAllAux pat fuel cs

/-- Python `s.replace(pat, "")`. -/
def pyRemoveAll (s pat : String) : String :=
  String.mk (removeAllAux pat.data s.data.length s.data)

theorem dropWhile_dropWhile (p : Char → Bool) (l : List Char) :
    (l.dropWhile p).dropWhile p = l.dropWhile p := by
  induction l with
  | nil => rfl
  | cons a t ih =>
    by_cases h : p a
    · simp [List.dropWhile_cons, h, ih]
    · simp [List.dropWhile_cons, h]

theorem dropWhile_head_false (p : Char → Bool) (x : Char) (xs : List Char)
    (h : (x :: xs).dropWhile p = x :: xs) : p x = false := by
  by_cases hp : p x
  · exfalso
    rw [List.dropWhile_cons, if_pos hp] at h
    have hle : (xs.dropWhile p).length ≤ xs.length := by
      clear h
      induction xs with
      | nil => simp
      | cons y ys ihy =>
        by_cases hy : p y
        · rw [List.dropWhile_cons, if_pos hy]
          simp only [List.length_cons]
          omega
        · rw [List.dropWhile_cons, if_neg hy]
    have hlen := congrArg List.length h
    simp only [List.length_cons] at hlen
    omega
  · simpa using hp

theorem dropWhile_append_self (p : Char → Bool) (B C : List Char)
    (h : (B ++ C).dropWhile p = B ++ C) : B.dropWhile p = B := by
  cases B with
  | nil => rfl
  | cons b t =>
    have hb : p b = false := by
      apply dropWhile_head_false p b (t ++ C)
      simpa using h
    simp [List.dropWhile_cons, hb]

theorem stripL_idem (l : List Char) : stripL (stripL l) = stripL l := by
  have hAfix : (l.dropWhile isPySpace).dropWhile isPySpace = l.dropWhile isPySpace :=
    dropWhile_dropWhile isPySpace l
  obtain ⟨t, ht⟩ : ∃ t, t ++ (l.dropWhile isPySpace).reverse.dropWhile isPySpace =
      (l.dropWhile isPySpace).reverse :=
    ⟨(l.dropWhile isPySpace).reverse.takeWhile isPySpace,
      List.takeWhile_append_dropWhile isPySpace _⟩
  have hArev : l.dropWhile isPySpace =
      ((l.dropWhile isPySpace).reverse.dropWhile isPySpace).reverse ++ t.reverse := by
    have hrev := congrArg List.reverse ht
    simpa [List.reverse_append] using hrev.symm
  have hB : (((l.dropWhile isPySpace).reverse.dropWhile isPySpace).reverse).dropWhile
      isPySpace = ((l.dropWhile isPySpace).reverse.dropWhile isPySpace).reverse := by
    apply dropWhile_append_self isPySpace _ t.reverse
    rw [← hArev]
    exact hAfix
  show ((((((l.dropWhile isPySpace).reverse.dropWhile isPySpace).reverse).dropWhile
      isPySpace).reverse).dropWhile isPySpace).reverse = _
  rw [hB, List.reverse_reverse, dropWhile_dropWhile]
  rfl

theorem pyStrip_idem (s : String) : pyStrip (pyStrip s) = pyStrip s :=
  congrArg String.mk (stripL_idem s.data)

/-! ## Entry model -/

/-- One credential record: the six fields shared by the dict records of
`src/codline.py` and the `Entry` dataclass of `src/Visual/codline.py`. -/
structure Entry where
  site : String
  username : String
  password_hash : String
  password_encrypted : String
  created_at : String
  updated_at : String
deriving DecidableEq, Repr

/-- `build_entry` of `src/codline.py` (textually the same construction as
`Entry.build` of the Visual variant); `now` stands for
`datetime.utcnow().isoformat()`. -/
def build_entry (site username password admin_password now : String) : Entry :=
  { site := pyStrip site
    username := pyStrip username
    password_hash := hash_text password
    password_encrypted := encrypt_password password admin_password
    created_at := now
    updated_at := now }

/-- `Entry.update_password` of `src/Visual/codline.py`: recompute both password
fields from the same plaintext and bump `updated_at`. -/
def Entry.update_password (e : Entry) (password admin_password now : String) : Entry :=
  { e with
    password_hash := hash_text password
    password_encrypted := encrypt_password password admin_password
    updated_at := now }

/-- `Entry.update_login` of `src/Visual/codline.py`: replace each provided field
by its stripped value, then set `updated_at := now` — unconditionally, also when
both fields are `None`. -/
def Entry.update_login (e : Entry) (newSite newUsername : Option String) (now : String) :
    Entry :=
  let e1 := match newSite with
    | some s => { e with site := pyStrip s }
    | none => e
  let e2 := match newUsername with
    | some u => { e1 with username := pyStrip u }
    | none => e1
  { e2 with updated_at := now }

/-- The mutation `edit_entry` of `src/codline.py` performs on the selected entry.
`new_site` and `new_username` arrive `.strip()`ped (the call sites strip the
interactive input), `new_password` raw; empty inputs keep the old value; a
non-empty password updates both password fields together; `updated_at` is set
to `now` unconditionally. -/
def edit_entry_apply (e : Entry) (new_site new_username new_password admin_password now :
    String) : Entry :=
  let e1 := if new_site ≠ "" then { e with site := new_site } else e
  let e2 := if new_username ≠ "" then { e1 with username := new_username } else e1
  let e3 := if new_password ≠ "" then
      { e2 with
        password_hash := hash_text new_password
        password_encrypted := encrypt_password new_password admin_password }
    else e2
  { e3 with updated_at := now }

/-! ## Store -/

/-- JSON values, modelling what Python's `json.load` can return. -/
inductive Json where
  | null : Json
  | bool (b : Bool) : Json
  | num (n : Int) : Json
  | str (s : String) : Json
  | arr (items : List Json) : Json
  | obj (fields : List (String × Json)) : Json

/-- `isinstance(x, dict)`. -/
def Json.isObj : Json → Bool
  | .obj _ => true
  | _ => false

/-- `isinstance(x, list)`. -/
def Json.isArr : Json → Bool
  | .arr _ => true
  | _ => false

/-- Outcome of opening and `json.load`ing the store file, as seen by
`load_entries`: the file may be missing, `json.load` may raise
`json.JSONDecodeError`, or it returns a JSON value.  The JSON parser of the
Python standard library is treated as an oracle whose outcome is this input. -/
inductive LoadOutcome where
  | fileMissing : LoadOutcome
  | parseError (msg : String) : LoadOutcome
  | parsed (j : Json) : LoadOutcome

/-- `load_entries` of `src/codline.py`.  `.ok (printed, records)` models a
normal return (with the error lines the function printed); `.error` models a
Python exception escaping to the caller.  The `except` clause catches only
`json.JSONDecodeError`, so the `ValueError` raised for a parsed non-list value
is NOT caught and propagates. -/
def load_entries (file : LoadOutcome) : Except String (List String × List Json) :=
  match file with
  | .fileMissing => .ok ([], [])
  | .parseError msg => .ok (["Error al leer el archivo de datos.", msg], [])
  | .parsed j =>
    match j with
    | .arr items => .ok ([], items.filter Json.isObj)
    | _ => .error "ValueError: El formato del archivo es inválido."

/-- The file-system state the store functions of `src/codline.py` act on: the
JSON store file (the entry list `json.dump` last wrote, `none` when the file is
absent — `save_entries` writes the full list, so the file bytes are a function
of this value), the legacy text file at its original path, and the `.bak` file
migration renames it to. -/
structure FS where
  dataFile : Option (List Entry)
  legacyFile : Option (List String)
  legacyBak : Option (List String)
deriving DecidableEq, Repr

/-- `save_entries`: overwrite the store file with the full entry sequence. -/
def save_entries (fs : FS) (entries : List Entry) : FS :=
  { fs with dataFile := some entries }

/-- The label the legacy site line carries. -/
def siteLabel : String := "Sitio web / Aplicación: "

/-- The label the legacy username line carries. -/
def userLabel : String := "Usuario / Correo: "

/-- The label the legacy password line carries. -/
def passLabel : String := "Contraseña: "

/-- The migration loop of `ensure_storage` in `src/codline.py`:
`for i in range(0, len(lines), 3)` over the cleaned lines, each complete group
of three yielding `build_entry(site, username, password)` after stripping the
labels with `str.replace`; an incomplete trailing group raises `IndexError`,
which is swallowed (`continue`). -/
def migrateLines (admin_password now : String) : List String → List Entry
  | s :: u :: p :: rest =>
    build_entry (pyRemoveAll s siteLabel) (pyRemoveAll u userLabel)
      (pyRemoveAll p passLabel) admin_password now :: migrateLines admin_password now rest
  | _ => []

/-- `ensure_storage` of `src/codline.py`: no-op when the JSON store exists;
otherwise create an empty store, or migrate the legacy text file (strip each
line, drop blank lines, parse groups of three labelled lines) and rename the
legacy file to its `.bak` path. -/
def ensure_storage (admin_password now : String) (fs : FS) : FS :=
  if fs.dataFile.isSome then fs
  else
    match fs.legacyFile with
    | none => { fs with dataFile := some [] }
    | some fileLines =>
      let lines := (fileLines.map pyStrip).filter (fun l => l ≠ "")
      { fs with
        dataFile := some (migrateLines admin_password now lines)
        legacyFile := none
        legacyBak := some fileLines }

/-- `add_entry` of `src/codline.py` with the interactive input made explicit
(`site` and `username` are stripped exactly as `input(...).strip()` does, the
password is taken raw from `getpass`).  On a validation failure the function
returns before touching the store; the second component is the printed error. -/
def add_entry (fs : FS) (site username password admin_password now : String) :
    FS × Option String :=
  let siteT := pyStrip site
  let userT := pyStrip username
  if siteT = "" ∨ userT = "" ∨ password = "" then
    (fs, some "Todos los campos son obligatorios.")
  else
    let entries := fs.dataFile.getD []
    (save_entries fs (entries ++ [build_entry siteT userT password admin_password now]),
      none)

/-- Result of `select_entry` of `src/codline.py` for a parsed integer input. -/
inductive SelectResult where
  | cancel : SelectResult
  | chosen (index : Nat) : SelectResult
  | outOfRange : SelectResult
deriving DecidableEq

/-- `select_entry`: `0` cancels, `1 … n` choose the (1-based) entry, and any
other integer prints `"Selección fuera de rango."` and yields no index. -/
def select_entry (n : Nat) (selection : Int) : SelectResult :=
  if selection = 0 then .cancel
  else if 1 ≤ selection ∧ selection ≤ (n : Int) then .chosen (selection - 1).toNat
  else .outOfRange

/-- `delete_entry` of `src/codline.py` with the parsed selection as input: pops
and saves only when `select_entry` yields an index; on cancel or out-of-range it
returns before `save_entries`, leaving the file-system state untouched.  The
`Bool` records whether the out-of-range report was printed. -/
def delete_entry (fs : FS) (selection : Int) : FS × Bool :=
  let entries := fs.dataFile.getD []
  match select_entry entries.length selection with
  | .chosen i => (save_entries fs (entries.eraseIdx i), false)
  | .cancel => (fs, false)
  | .outOfRange => (fs, true)

/-! ## Listing -/

/-- The password cell `list_entries` of `src/codline.py` computes for one entry:
`decrypt_password` inside `try`, any exception replaced by the error cell. -/
def row_password (e : Entry) (admin_password : String) : String :=
  match decrypt_password e.password_encrypted admin_password with
  | .ok p => p
  | .error _ => "Error al descifrar"

/-- The rows `list_entries` of `src/codline.py` builds, one per entry
(site, username, password cell, `updated_at`; the index column and the date
re-formatting are presentation). -/
def list_rows (entries : List Entry) (admin_password : String) :
    List (String × String × String × String) :=
  entries.map (fun e => (e.site, e.username, row_password e admin_password, e.updated_at))

/-- The rows `view_entries` of `src/Visual/codline.py` builds: there
`decrypt_password` is called with NO exception handler, so one failure escapes
and aborts the whole listing. -/
def view_rows (entries : List Entry) (admin_password : String) :
    Except String (List (String × String × String × String)) :=
  entries.mapM (fun e =>
    (decrypt_password e.password_encrypted admin_password).map
      (fun p => (e.site, e.username, p, e.updated_at)))

/-- `true` iff the computation returned normally (no Python exception). -/
def exOk {α β : Type} : Except α β → Bool
  | .ok _ => true
  | .error _ => false

/-! ## Reachable entry states (for the hash/ciphertext consistency invariant) -/

/-- One entry mutation performed by the sources: `Entry.update_password` and
`Entry.update_login` of the Visual variant, and the `edit_entry` mutation of
`src/codline.py`. -/
inductive EntryOp where
  | updatePassword (password now : String) : EntryOp
  | updateLogin (newSite newUsername : Option String) (now : String) : EntryOp
  | edit (newSite newUsername newPassword now : String) : EntryOp

/-- Apply one mutation under the session secret. -/
def applyOp (admin_password : String) (e : Entry) : EntryOp → Entry
  | .updatePassword password now => e.update_password password admin_password now
  | .updateLogin newSite newUsername now => e.update_login newSite newUsername now
  | .edit newSite newUsername newPassword now =>
    edit_entry_apply e newSite newUsername newPassword admin_password now

/-- Entry states reachable within one authenticated session with secret
`admin_password`: created by `build_entry` (create or migration) and transformed
by any sequence of the password/identity mutations. -/
inductive Reachable (admin_password : String) : Entry → Prop where
  | created (site username password now : String) :
      Reachable admin_password (build_entry site username password admin_password now)
  | step (e : Entry) (op : EntryOp) : Reachable admin_password e →
      Reachable admin_password (applyOp admin_password e op)


/-! ## The claims -/

/-- C1: for every plaintext `p` — in particular every printable UTF-8 string —
and every secret `s`, `decrypt_password (encrypt_password p s) s = p`: the
SHA-256-derived repeating-key XOR followed by URL-safe base64 encoding is
inverted exactly by `decrypt_password` under the same secret. -/
theorem claim1_encrypt_decrypt_roundtrip (p s : String) :
    decrypt_password (encrypt_password p s) s = Except.ok p :=
  decrypt_encrypt p s

/-- C2: given a legacy file of exactly two well-formed 3-line labelled groups
(none of the lines blank after stripping) and no current-format store,
`ensure_storage` produces a store of exactly two entries whose stored
passwords decrypt under the same secret to the two legacy passwords, and the
legacy file is gone from its original path (renamed to the `.bak` slot). -/
theorem claim2_migration (secret now l1 l2 l3 l4 l5 l6 : String)
    (h1 : pyStrip l1 ≠ "") (h2 : pyStrip l2 ≠ "") (h3 : pyStrip l3 ≠ "")
    (h4 : pyStrip l4 ≠ "") (h5 : pyStrip l5 ≠ "") (h6 : pyStrip l6 ≠ "") :
    ensure_storage secret now ⟨none, some [l1, l2, l3, l4, l5, l6], none⟩ =
      ⟨some [build_entry (pyRemoveAll (pyStrip l1) siteLabel)
               (pyRemoveAll (pyStrip l2) userLabel)
               (pyRemoveAll (pyStrip l3) passLabel) secret now,
             build_entry (pyRemoveAll (pyStrip l4) siteLabel)
               (pyRemoveAll (pyStrip l5) userLabel)
               (pyRemoveAll (pyStrip l6) passLabel) secret now],
        none, some [l1, l2, l3, l4, l5, l6]⟩ ∧
    decrypt_password (build_entry (pyRemoveAll (pyStrip l1) siteLabel)
        (pyRemoveAll (pyStrip l2) userLabel)
        (pyRemoveAll (pyStrip l3) passLabel) secret now).password_encrypted secret =
      Except.ok (pyRemoveAll (pyStrip l3) passLabel) ∧
    decrypt_password (build_entry (pyRemoveAll (pyStrip l4) siteLabel)
        (pyRemoveAll (pyStrip l5) userLabel)
        (pyRemoveAll (pyStrip l6) passLabel) secret now).password_encrypted secret =
      Except.ok (pyRemoveAll (pyStrip l6) passLabel) := by
  refine ⟨?_, decrypt_encrypt _ _, decrypt_encrypt _ _⟩
  simp [ensure_storage, migrateLines, h1, h2, h3, h4, h5, h6]

/-- C2 witness: the migration theorem at the concrete two-group legacy file of
the specification scenario. -/
theorem claim2_migration_witness :
    pyStrip "Sitio web / Aplicación: A" ≠ "" ∧
    pyStrip "Usuario / Correo: u1" ≠ "" ∧
    pyStrip "Contraseña: p1" ≠ "" ∧
    pyStrip "Sitio web / Aplicación: B" ≠ "" ∧
    pyStrip "Usuario / Correo: u2" ≠ "" ∧
    pyStrip "Contraseña: p2" ≠ "" ∧
    (ensure_storage "1234" "T" ⟨none, some ["Sitio web / Aplicación: A",
        "Usuario / Correo: u1", "Contraseña: p1", "Sitio web / Aplicación: B",
        "Usuario / Correo: u2", "Contraseña: p2"], none⟩ =
      ⟨some [build_entry (pyRemoveAll (pyStrip "Sitio web / Aplicación: A") siteLabel)
               (pyRemoveAll (pyStrip "Usuario / Correo: u1") userLabel)
               (pyRemoveAll (pyStrip "Contraseña: p1") passLabel) "1234" "T",
             build_entry (pyRemoveAll (pyStrip "Sitio web / Aplicación: B") siteLabel)
               (pyRemoveAll (pyStrip "Usuario / Correo: u2") userLabel)
               (pyRemoveAll (pyStrip "Contraseña: p2") passLabel) "1234" "T"],
        none, some ["Sitio web / Aplicación: A", "Usuario / Correo: u1",
          "Contraseña: p1", "Sitio web / Aplicación: B", "Usuario / Correo: u2",
          "Contraseña: p2"]⟩ ∧
    decrypt_password (build_entry (pyRemoveAll (pyStrip "Sitio web / Aplicación: A") siteLabel)
        (pyRemoveAll (pyStrip "Usuario / Correo: u1") userLabel)
        (pyRemoveAll (pyStrip "Contraseña: p1") passLabel) "1234" "T").password_encrypted
        "1234" =
      Except.ok (pyRemoveAll (pyStrip "Contraseña: p1") passLabel) ∧
    decrypt_password (build_entry (pyRemoveAll (pyStrip "Sitio web / Aplicación: B") siteLabel)
        (pyRemoveAll (pyStrip "Usuario / Correo: u2") userLabel)
        (pyRemoveAll (pyStrip "Contraseña: p2") passLabel) "1234" "T").password_encrypted
        "1234" =
      Except.ok (pyRemoveAll (pyStrip "Contraseña: p2") passLabel)) :=
  ⟨by decide, by decide, by decide, by decide, by decide, by decide,
    claim2_migration "1234" "T" _ _ _ _ _ _ (by decide) (by decide) (by decide)
      (by decide) (by decide) (by decide)⟩

/-- C3 counterexample: a store file holding the valid JSON value `5` — which is
not a list — makes `load_entries` of `src/codline.py` raise (the `ValueError`
thrown inside the `try` block is not `json.JSONDecodeError`, the only class the
`except` clause catches), instead of reporting and returning empty. -/
theorem claim3_counterexample :
    exOk (load_entries (.parsed (.num 5))) = false := rfl

/-- C3 amended: `load_entries` returns empty when the file is missing, and
reports the error and returns empty on malformed JSON; but a file parsing to a
JSON value that is not a list makes it raise `ValueError` to its caller. -/
theorem claim3_load_entries (msg : String) (items : List Json) (j : Json)
    (hj : j.isArr = false) :
    load_entries .fileMissing = .ok ([], []) ∧
    load_entries (.parseError msg) =
      .ok (["Error al leer el archivo de datos.", msg], []) ∧
    load_entries (.parsed (.arr items)) = .ok ([], items.filter Json.isObj) ∧
    exOk (load_entries (.parsed j)) = false := by
  refine ⟨rfl, rfl, rfl, ?_⟩
  cases j <;> first
    | rfl
    | simp [Json.isArr] at hj

/-- C3 witness: the amended behaviour at a parse error, a well-formed list and
the non-list value `5`. -/
theorem claim3_load_entries_witness :
    Json.isArr (.num 5) = false ∧
    (load_entries .fileMissing = .ok ([], []) ∧
    load_entries (.parseError "boom") =
      .ok (["Error al leer el archivo de datos.", "boom"], []) ∧
    load_entries (.parsed (.arr [])) = .ok ([], List.filter Json.isObj []) ∧
    exOk (load_entries (.parsed (.num 5))) = false) :=
  ⟨rfl, claim3_load_entries "boom" [] (.num 5) rfl⟩

/-- An entry whose ciphertext is a single base64 data character: CPython's
`a2b_base64` raises `binascii.Error` ("number of data characters (1) cannot be
1 more than a multiple of 4"), so decryption raises — before the key is even
used. -/
def badEntry : Entry :=
  { site := "bad", username := "u", password_hash := "h",
    password_encrypted := "A", created_at := "t", updated_at := "t" }

/-- A well-formed entry storing plaintext `p` encrypted under `secret`. -/
def goodEntry (p secret : String) : Entry := build_entry "good" "user" p secret "t"

/-- C4 counterexample: in `view_entries` of `src/Visual/codline.py` the
decryption call has no per-entry handler, so a vault holding one undecryptable
entry and one decryptable entry aborts the whole listing — no row is produced
for the decryptable entry, refuting the claim for that variant. -/
theorem claim4_counterexample :
    exOk (view_rows [badEntry, goodEntry "p" "k"] "k") = false ∧
    exOk (decrypt_password badEntry.password_encrypted "k") = false ∧
    decrypt_password (goodEntry "p" "k").password_encrypted "k" = Except.ok "p" :=
  ⟨rfl, rfl, decrypt_encrypt "p" "k"⟩

/-- C4 amended: `list_entries` of `src/codline.py` does behave as claimed — the
listing always yields one row per entry (an undecryptable entry only turns its
own password cell into the error marker), and every decryptable entry's row
carries its plaintext; but `view_entries` of `src/Visual/codline.py` aborts on
the first undecryptable entry (see the counterexample). -/
theorem claim4_list_rows (entries : List Entry) (secret : String) :
    (list_rows entries secret).length = entries.length ∧
    ∀ i, (h : i < entries.length) → ∀ p : String,
      decrypt_password entries[i].password_encrypted secret = Except.ok p →
      (list_rows entries secret)[i]? =
        some (entries[i].site, entries[i].username, p, entries[i].updated_at) := by
  constructor
  · simp [list_rows]
  · intro i h p hdec
    simp [list_rows, List.getElem?_map, List.getElem?_eq_getElem h, row_password, hdec]

/-- C4 witness: the per-entry listing property at a one-entry vault. -/
theorem claim4_list_rows_witness :
    0 < 1 ∧
    decrypt_password (goodEntry "p" "k").password_encrypted "k" = Except.ok "p" ∧
    (list_rows [goodEntry "p" "k"] "k").length = 1 ∧
    (list_rows [goodEntry "p" "k"] "k")[0]? =
      some ((goodEntry "p" "k").site, (goodEntry "p" "k").username, "p",
        (goodEntry "p" "k").updated_at) := by
  refine ⟨by decide, decrypt_encrypt "p" "k",
    (claim4_list_rows [goodEntry "p" "k"] "k").1, ?_⟩
  exact (claim4_list_rows [goodEntry "p" "k"] "k").2 0 (by decide) "p"
    (decrypt_encrypt "p" "k")

/-- C5 counterexample: `Entry.update_login` with both fields absent is NOT a
no-op — `updated_at` is still replaced by the new timestamp. -/
theorem claim5_counterexample :
    Entry.update_login ⟨"a", "u", "h", "enc", "t0", "t0"⟩ none none "t1" ≠
      ⟨"a", "u", "h", "enc", "t0", "t0"⟩ := by
  decide

/-- C5 amended: `update_identity` (`Entry.update_login` in the Visual variant,
and the identity part of `edit_entry` in `src/codline.py`) replaces exactly the
provided fields with their trimmed values, never touches the password fields or
`created_at` — but sets `updated_at` to "now" unconditionally, also when both
fields are absent, so such a call is not a no-op. -/
theorem claim5_update_identity (e : Entry) (now : String) :
    (∀ newSite newUsername : Option String,
      (e.update_login newSite newUsername now).site =
        (match newSite with | some s => pyStrip s | none => e.site) ∧
      (e.update_login newSite newUsername now).username =
        (match newUsername with | some u => pyStrip u | none => e.username) ∧
      (e.update_login newSite newUsername now).password_hash = e.password_hash ∧
      (e.update_login newSite newUsername now).password_encrypted =
        e.password_encrypted ∧
      (e.update_login newSite newUsername now).created_at = e.created_at ∧
      (e.update_login newSite newUsername now).updated_at = now) ∧
    e.update_login none none now = { e with updated_at := now } ∧
    (∀ secret, edit_entry_apply e "" "" "" secret now = { e with updated_at := now }) := by
  refine ⟨?_, ?_, ?_⟩
  · intro newSite newUsername
    cases newSite <;> cases newUsername <;> simp [Entry.update_login]
  · simp [Entry.update_login]
  · intro secret
    simp [edit_entry_apply]

/-- C6: `add_entry` (the create operation) trims site and username, aborts with
the validation error and writes nothing whenever the trimmed site, the trimmed
username, or the (untrimmed) password is empty; otherwise it appends exactly
the entry with `password_hash = hash_text password`,
`password_encrypted = encrypt_password password secret` and both timestamps
equal to "now". -/
theorem claim6_create (fs : FS) (site username password secret now : String) :
    (pyStrip site = "" ∨ pyStrip username = "" ∨ password = "" →
      add_entry fs site username password secret now =
        (fs, some "Todos los campos son obligatorios.")) ∧
    (pyStrip site ≠ "" → pyStrip username ≠ "" → password ≠ "" →
      add_entry fs site username password secret now =
        ({ fs with dataFile := some (fs.dataFile.getD [] ++
            [{ site := pyStrip site, username := pyStrip username,
               password_hash := hash_text password,
               password_encrypted := encrypt_password password secret,
               created_at := now, updated_at := now }]) }, none)) := by
  constructor
  · intro h
    simp only [add_entry, if_pos h]
  · intro hs hu hp
    simp only [add_entry]
    rw [if_neg (by tauto)]
    simp [save_entries, build_entry, pyStrip_idem]

/-- C6 witness: one rejected create (blank site) and one accepted create. -/
theorem claim6_create_witness :
    (pyStrip " " = "" ∨ pyStrip "u" = "" ∨ "p" = "") ∧
    add_entry ⟨some [], none, none⟩ " " "u" "p" "k" "t" =
      (⟨some [], none, none⟩, some "Todos los campos son obligatorios.") ∧
    (pyStrip " siteA " ≠ "" ∧ pyStrip "u" ≠ "" ∧ "p" ≠ "") ∧
    add_entry ⟨some [], none, none⟩ " siteA " "u" "p" "k" "t" =
      (⟨some [{ site := pyStrip " siteA ", username := pyStrip "u",
                password_hash := hash_text "p",
                password_encrypted := encrypt_password "p" "k",
                created_at := "t", updated_at := "t" }], none, none⟩, none) := by
  refine ⟨Or.inl (by decide), ?_, ⟨by decide, by decide, by decide⟩, ?_⟩
  · exact (claim6_create ⟨some [], none, none⟩ " " "u" "p" "k" "t").1
      (Or.inl (by decide))
  · exact (claim6_create ⟨some [], none, none⟩ " siteA " "u" "p" "k" "t").2
      (by decide) (by decide) (by decide)

/-- C7: every entry state reachable in a session — created by `build_entry` and
transformed by any sequence of `update_password`, `update_login` and the
`edit_entry` mutation — carries a hash and a ciphertext describing one and the
same plaintext: there is a unique `p` with `password_hash = hash_text p` and
`password_encrypted = encrypt_password p secret`; the two fields are never
updated independently. -/
theorem claim7_hash_encrypted_consistent (secret : String) (e : Entry)
    (h : Reachable secret e) :
    ∃ p, e.password_hash = hash_text p ∧
      e.password_encrypted = encrypt_password p secret ∧
      ∀ q, e.password_encrypted = encrypt_password q secret → q = p := by
  induction h with
  | created site username password now =>
    exact ⟨password, rfl, rfl, fun q hq => (encrypt_inj password q secret hq).symm⟩
  | step e op hr ih =>
    obtain ⟨p, hh, he, hu⟩ := ih
    cases op with
    | updatePassword pw now =>
      exact ⟨pw, rfl, rfl, fun q hq => (encrypt_inj pw q secret hq).symm⟩
    | updateLogin ns nu now =>
      have hfields : (applyOp secret e (.updateLogin ns nu now)).password_hash =
          e.password_hash ∧
          (applyOp secret e (.updateLogin ns nu now)).password_encrypted =
          e.password_encrypted := by
        cases ns <;> cases nu <;> simp [applyOp, Entry.update_login]
      exact ⟨p, hfields.1.trans hh, hfields.2.trans he,
        fun q hq => hu q (hfields.2.symm.trans hq)⟩
    | edit ns nu npw now =>
      by_cases hnp : npw = ""
      · have hfields : (applyOp secret e (.edit ns nu npw now)).password_hash =
            e.password_hash ∧
            (applyOp secret e (.edit ns nu npw now)).password_encrypted =
            e.password_encrypted := by
          simp only [applyOp, edit_entry_apply, hnp]
          split_ifs <;> simp_all
        exact ⟨p, hfields.1.trans hh, hfields.2.trans he,
          fun q hq => hu q (hfields.2.symm.trans hq)⟩
      · have hfields : (applyOp secret e (.edit ns nu npw now)).password_hash =
            hash_text npw ∧
            (applyOp secret e (.edit ns nu npw now)).password_encrypted =
            encrypt_password npw secret := by
          simp only [applyOp, edit_entry_apply]
          split_ifs <;> simp_all
        exact ⟨npw, hfields.1, hfields.2,
          fun q hq => (encrypt_inj npw q secret (hfields.2.symm.trans hq)).symm⟩

/-- C7 witness: the invariant at a concrete two-step reachable entry
(create, then password update). -/
theorem claim7_witness :
    Reachable "k" (applyOp "k" (build_entry "s" "u" "pw" "k" "t")
      (.updatePassword "pw2" "t2")) ∧
    ∃ p, (applyOp "k" (build_entry "s" "u" "pw" "k" "t")
        (.updatePassword "pw2" "t2")).password_hash = hash_text p ∧
      (applyOp "k" (build_entry "s" "u" "pw" "k" "t")
        (.updatePassword "pw2" "t2")).password_encrypted = encrypt_password p "k" ∧
      ∀ q, (applyOp "k" (build_entry "s" "u" "pw" "k" "t")
        (.updatePassword "pw2" "t2")).password_encrypted = encrypt_password q "k" →
        q = p := by
  have hreach : Reachable "k" (applyOp "k" (build_entry "s" "u" "pw" "k" "t")
      (.updatePassword "pw2" "t2")) :=
    Reachable.step _ _ (Reachable.created "s" "u" "pw" "t")
  exact ⟨hreach, claim7_hash_encrypted_consistent "k" _ hreach⟩

/-- C8: `delete_entry` invoked with an out-of-range selection — any integer that
is neither the cancel command `0` nor a valid 1-based position `1 … n`, i.e.
whose 0-based index is `< 0` or `≥ n` — prints the not-found report
(`"Selección fuera de rango."`) and performs no mutation: the function returns
before `save_entries`, so the whole file-system state, in particular the store
file, is unchanged. -/
theorem claim8_remove_out_of_range (fs : FS) (selection : Int)
    (hnz : selection ≠ 0)
    (hout : ¬(1 ≤ selection ∧ selection ≤ ((fs.dataFile.getD []).length : Int))) :
    delete_entry fs selection = (fs, true) := by
  simp only [delete_entry, select_entry, if_neg hnz, if_neg hout]

/-- C8 witness: deleting at selection 5 of a one-entry store. -/
theorem claim8_remove_witness :
    (5 : Int) ≠ 0 ∧
    ¬(1 ≤ (5 : Int) ∧ (5 : Int) ≤
      (((⟨some [⟨"s", "u", "h", "enc", "t", "t"⟩], none, none⟩ : FS).dataFile.getD
        []).length : Int)) ∧
    delete_entry ⟨some [⟨"s", "u", "h", "enc", "t", "t"⟩], none, none⟩ 5 =
      (⟨some [⟨"s", "u", "h", "enc", "t", "t"⟩], none, none⟩, true) := by
  refine ⟨by decide, by decide, ?_⟩
  exact claim8_remove_out_of_range _ 5 (by decide) (by decide)

/-- C9: the ciphertext length is a function of the UTF-8 byte length of the
plaintext alone — two plaintexts of equal byte length encrypt, under any two
secrets, to base64 texts of equal length, namely `4 * ⌈n/3⌉` characters for `n`
plaintext bytes: the length leaks nothing about the secret and fully reveals
the plaintext's byte length. -/
theorem claim9_ciphertext_length (p q s1 s2 : String)
    (h : (utf8EncodeBytes p).length = (utf8EncodeBytes q).length) :
    (encrypt_password p s1).length = (encrypt_password q s2).length ∧
    (encrypt_password p s1).length = 4 * (((utf8EncodeBytes p).length + 2) / 3) := by
  have hlen : ∀ (pp ss : String), (encrypt_password pp ss).length =
      4 * (((utf8EncodeBytes pp).length + 2) / 3) := by
    intro pp ss
    show ((b64EncodeBytes (xorCycle (derive_xor_key ss) (utf8EncodeBytes pp))).map
      Char.ofNat).length = _
    rw [List.length_map, b64EncodeBytes_length, xorCycle, xorCycleFrom_length]
  refine ⟨?_, hlen p s1⟩
  rw [hlen p s1, hlen q s2, h]

/-- C9 witness: two 3-byte plaintexts under two different secrets. -/
theorem claim9_ciphertext_length_witness :
    (utf8EncodeBytes "abc").length = (utf8EncodeBytes "xyz").length ∧
    (encrypt_password "abc" "s1").length = (encrypt_password "xyz" "s2").length ∧
    (encrypt_password "abc" "s1").length =
      4 * (((utf8EncodeBytes "abc").length + 2) / 3) := by
  have h := claim9_ciphertext_length "abc" "xyz" "s1" "s2" (by decide)
  exact ⟨by decide, h.1, h.2⟩

/-- C10: the empty plaintext encrypts to the empty ciphertext, which decrypts
successfully to the empty string under ANY secret — so the per-entry
wrong-secret decryption error can never occur for an entry whose stored
password is empty. -/
theorem claim10_empty_password (s t : String) :
    decrypt_password (encrypt_password "" s) t = Except.ok "" := rfl

end PasswordManager
